import Mathlib

/- Verification development for src/security.js of the search-intel repository.

   Shallow embedding conventions:
   - JavaScript strings are Lean `String` / `List Char`.
   - The JavaScript numbers that occur in this file (octet values coerced by
     `Number(...)`, prefix lengths from `parseInt(...)`) are modeled with exact
     integer / rational arithmetic.  Binary floating point and exact rationals
     agree on every comparison and truncation this program performs on the
     values that can reach them; the sole idealization is that enormous or
     ultra-precise literals (beyond double precision) keep their exact value
     here, which cannot change any of the 0/255/32 threshold tests below
     except on boundary-straddling literals that never occur in the claims.
   - The 32-bit bitwise expressions, which JavaScript evaluates through
     ToInt32 / ToUint32 coercions, are written with explicit `% 2^32`
     reductions (the signed/unsigned reinterpretations cancel in `>>> 0`
     context and are noted where they arise).
   - Instants are abstracted to the calendar date they denote in the
     configured time zone (luxon `DateTime.now().setZone(TZ)`); luxon's
     `minus (days 1)` becomes the previous Gregorian calendar date. -/

/-- Code points treated as whitespace by JS `ToNumber`, `String.prototype.trim`
and `parseInt`: WhiteSpace plus LineTerminator, including the Unicode
space-separator category. -/
def jsWhiteCodes : List Nat :=
  [9, 10, 11, 12, 13, 32, 160, 5760, 8192, 8193, 8194, 8195, 8196, 8197,
   8198, 8199, 8200, 8201, 8202, 8232, 8233, 8239, 8287, 12288, 65279]

/-- Whether a character is JS string whitespace. -/
def jsStrWhite (c : Char) : Bool := decide (c.toNat ∈ jsWhiteCodes)

/-- Trim JS whitespace from both ends (JS `trim`, and the trimming step of
`ToNumber` on strings). -/
def trimJs (l : List Char) : List Char :=
  ((l.dropWhile jsStrWhite).reverse.dropWhile jsStrWhite).reverse

/-- ASCII decimal digit test. -/
def isDig (c : Char) : Bool := 48 ≤ c.toNat && c.toNat ≤ 57

/-- Value of an ASCII decimal digit list, most significant first. -/
def decVal (l : List Char) : Nat :=
  l.foldl (fun a c => 10 * a + (c.toNat - 48)) 0

/-- ASCII hexadecimal digit test. -/
def isHexDig (c : Char) : Bool :=
  (48 ≤ c.toNat && c.toNat ≤ 57) || (97 ≤ c.toNat && c.toNat ≤ 102) ||
  (65 ≤ c.toNat && c.toNat ≤ 70)

/-- Value of one hexadecimal digit. -/
def hexDigVal (c : Char) : Nat :=
  if 97 ≤ c.toNat then c.toNat - 87
  else if 65 ≤ c.toNat then c.toNat - 55
  else c.toNat - 48

/-- Value of a hexadecimal digit list. -/
def hexVal (l : List Char) : Nat := l.foldl (fun a c => 16 * a + hexDigVal c) 0

/-- ASCII octal digit test. -/
def isOctDig (c : Char) : Bool := 48 ≤ c.toNat && c.toNat ≤ 55

/-- Value of an octal digit list. -/
def octVal (l : List Char) : Nat := l.foldl (fun a c => 8 * a + (c.toNat - 48)) 0

/-- ASCII binary digit test. -/
def isBinDig (c : Char) : Bool := c.toNat = 48 || c.toNat = 49

/-- Value of a binary digit list. -/
def binVal (l : List Char) : Nat := l.foldl (fun a c => 2 * a + (c.toNat - 48)) 0

/-- Result of JS `Number(...)` applied to a string: NaN, a signed infinity, or
a finite value (kept exact as a rational). -/
inductive JSNum where
  | nan : JSNum
  | posInf : JSNum
  | negInf : JSNum
  | num : Rat → JSNum
deriving DecidableEq

/-- JS unary minus on a `Number(...)` result. -/
def jsNeg : JSNum → JSNum
  | .nan => .nan
  | .posInf => .negInf
  | .negInf => .posInf
  | .num q => .num (-q)

/-- Parse the exponent tail of a decimal literal (after the `e`/`E`):
an optional sign followed by at least one digit, consuming everything. -/
def expVal (l : List Char) : Option Int :=
  if l.head? = some '+' then
    (if l.tail ≠ [] ∧ l.tail.all isDig then some ((decVal l.tail : Int)) else none)
  else if l.head? = some '-' then
    (if l.tail ≠ [] ∧ l.tail.all isDig then some (-(decVal l.tail : Int)) else none)
  else if l ≠ [] ∧ l.all isDig then some ((decVal l : Int)) else none

/-- Apply a parsed exponent to a mantissa; a malformed exponent means NaN. -/
def applyExp (m : Rat) (l : List Char) : JSNum :=
  match expVal l with
  | some e => .num (m * (10 : Rat) ^ e)
  | none => .nan

/-- Unsigned part of the `StrDecimalLiteral` grammar of JS `ToNumber`:
`Infinity`, or digits with optional fraction and optional exponent. -/
def unsignedDecVal (l : List Char) : JSNum :=
  if l = "Infinity".data then .posInf
  else
    let ip := l.takeWhile isDig
    let r1 := l.dropWhile isDig
    if r1 = [] then (if ip = [] then .nan else .num ((decVal ip : Rat)))
    else if r1.head? = some '.' then
      let fp := r1.tail.takeWhile isDig
      let r3 := r1.tail.dropWhile isDig
      if ip = [] ∧ fp = [] then .nan
      else
        let m : Rat := (decVal ip : Rat) + (decVal fp : Rat) / (10 : Rat) ^ fp.length
        if r3 = [] then .num m
        else if r3.head? = some 'e' ∨ r3.head? = some 'E' then applyExp m r3.tail
        else .nan
    else if r1.head? = some 'e' ∨ r1.head? = some 'E' then
      if ip = [] then .nan else applyExp ((decVal ip : Rat)) r1.tail
    else .nan

/-- JS `Number(...)` on a string (ECMAScript ToNumber): trim whitespace; empty
means `0`; otherwise an optionally signed decimal literal, or an unsigned
hexadecimal / octal / binary integer literal; anything else is NaN. -/
def jsNumberL (l0 : List Char) : JSNum :=
  let l := trimJs l0
  if l = [] then .num 0
  else if l.head? = some '+' then unsignedDecVal l.tail
  else if l.head? = some '-' then jsNeg (unsignedDecVal l.tail)
  else if l.take 2 = ['0', 'x'] ∨ l.take 2 = ['0', 'X'] then
    (if l.drop 2 ≠ [] ∧ (l.drop 2).all isHexDig then .num ((hexVal (l.drop 2) : Rat)) else .nan)
  else if l.take 2 = ['0', 'o'] ∨ l.take 2 = ['0', 'O'] then
    (if l.drop 2 ≠ [] ∧ (l.drop 2).all isOctDig then .num ((octVal (l.drop 2) : Rat)) else .nan)
  else if l.take 2 = ['0', 'b'] ∨ l.take 2 = ['0', 'B'] then
    (if l.drop 2 ≠ [] ∧ (l.drop 2).all isBinDig then .num ((binVal (l.drop 2) : Rat)) else .nan)
  else unsignedDecVal l

/-- Truncation toward zero of a rational (the integer step of ToInt32 /
ToUint32 on a finite value). -/
def ratTrunc (q : Rat) : Int :=
  if q < 0 then -(Rat.floor (-q)) else Rat.floor q

/-- JS ToUint32 of a `Number(...)` result (NaN and infinities go to 0). -/
def jsToUint32 : JSNum → Nat
  | .num q => ((ratTrunc q) % (4294967296 : Int)).toNat
  | _ => 0

/-- The rejection test of `ipv4ToInt`: `Number.isNaN(n) || n < 0 || n > 255`.
`Infinity` fails the `n > 255` test and `-Infinity` the `n < 0` test. -/
def jsNumIsBad : JSNum → Bool
  | .nan => true
  | .posInf => true
  | .negInf => true
  | .num q => q < 0 || q > 255

/-- JS `parseInt(s, 10)`: skip leading whitespace, optional sign, then the
longest prefix of decimal digits (trailing garbage ignored); no digits means
NaN (`none`). -/
def parseIntDecL (l0 : List Char) : Option Int :=
  let l := l0.dropWhile jsStrWhite
  if l.head? = some '+' then
    (let ds := l.tail.takeWhile isDig
     if ds = [] then none else some ((decVal ds : Int)))
  else if l.head? = some '-' then
    (let ds := l.tail.takeWhile isDig
     if ds = [] then none else some (-(decVal ds : Int)))
  else
    (let ds := l.takeWhile isDig
     if ds = [] then none else some ((decVal ds : Int)))

/-- Core of single-character `split`: returns the segment before the first
separator and the list of remaining segments. -/
def splitCharCore (sep : Char) : List Char → List Char × List (List Char)
  | [] => ([], [])
  | c :: rest =>
    let p := splitCharCore sep rest
    if c = sep then ([], p.1 :: p.2) else (c :: p.1, p.2)

/-- JS `String.prototype.split` with a one-character separator (the only kind
this program uses: `'.'`, `'/'`, `','`). -/
def splitChar (sep : Char) (l : List Char) : List (List Char) :=
  (splitCharCore sep l).1 :: (splitCharCore sep l).2

/-- `ipv4ToInt` of src/security.js on the character list of the input:
split on `'.'`, coerce each part with `Number`, reject unless there are
exactly four parts each a non-NaN value in [0, 255], then pack big-endian.
The JS `(p[0] << 24) >>> 0` etc. reduce, for values in [0, 255], to
truncation followed by shifting mod 2^32, which is written out explicitly. -/
def ipv4ToIntL (l : List Char) : Option Nat :=
  match (splitChar '.' l).map jsNumberL with
  | [a, b, c, d] =>
    if jsNumIsBad a || jsNumIsBad b || jsNumIsBad c || jsNumIsBad d then none
    else some (((jsToUint32 a * 2 ^ 24) % 2 ^ 32 + (jsToUint32 b * 2 ^ 16) % 2 ^ 32 +
                (jsToUint32 c * 2 ^ 8) % 2 ^ 32 + jsToUint32 d % 2 ^ 32) % 2 ^ 32)
  | _ => none

/-- `ipv4ToInt` on a `String`. -/
def ipv4ToInt (s : String) : Option Nat := ipv4ToIntL s.data

/-- One parsed CIDR block, inclusive integer bounds.  `stop` is the source's
`end` field (`end` is reserved in Lean). -/
structure IPRange where
  start : Nat
  stop : Nat
deriving DecidableEq

/-- `parseCIDR` of src/security.js.  `parts[1] !== undefined` becomes a match
on the second segment; `parseInt` returning NaN becomes `none`.  For
`0 < bits ≤ 32`, JS `(0xFFFFFFFF << (32 - bits)) >>> 0` equals
`2^32 - 2^(32-bits)`; `~mask >>> 0` equals `2^32 - 1 - mask`; the `&` and `|`
of values below 2^32 under ToInt32/`>>> 0` equal `Nat.land`/`Nat.lor`. -/
def parseCIDR (cidr : String) : Option IPRange :=
  let parts := splitChar '/' cidr.data
  let bits? : Option Int :=
    match parts.tail.head? with
    | some b => parseIntDecL b
    | none => some 32
  match ipv4ToIntL (parts.headD []), bits? with
  | some ipInt, some bits =>
    if 0 ≤ bits ∧ bits ≤ 32 then
      let mask : Nat := if bits = 0 then 0 else 2 ^ 32 - 2 ^ (32 - bits.toNat)
      let start : Nat := ipInt &&& mask
      some ⟨start, start ||| (2 ^ 32 - 1 - mask)⟩
    else none
  | _, _ => none

/-- `buildRanges` of src/security.js: `list.map(parseCIDR).filter(Boolean)`. -/
def buildRanges (list : List String) : List IPRange :=
  (list.map parseCIDR).filterMap id

/-- `ipAllowed` of src/security.js: parse the candidate, fail closed on
`null`, otherwise test membership in any range. -/
def ipAllowed (ip : String) (ranges : List IPRange) : Bool :=
  match ipv4ToInt ip with
  | none => false
  | some ipInt => ranges.any fun r => decide (r.start ≤ ipInt) && decide (ipInt ≤ r.stop)

/-- Value of one character under Node's lenient base64 decoder alphabet
(standard and url-safe); `none` for characters outside it (whitespace and
anything else invalid, which the decoder skips — `'='` is handled separately
as a terminator before this table is consulted). -/
def b64CharVal (c : Char) : Option Nat :=
  if 65 ≤ c.toNat ∧ c.toNat ≤ 90 then some (c.toNat - 65)
  else if 97 ≤ c.toNat ∧ c.toNat ≤ 122 then some (c.toNat - 71)
  else if 48 ≤ c.toNat ∧ c.toNat ≤ 57 then some (c.toNat + 4)
  else if c = '+' ∨ c = '-' then some 62
  else if c = '/' ∨ c = '_' then some 63
  else none

/-- Regroup base64 sextets into bytes: every full group of four sextets gives
three bytes; two or three trailing sextets give one or two bytes. -/
def sextetsToBytes : List Nat → List Nat
  | a :: b :: c :: d :: rest =>
    (a * 4 + b / 16) :: ((b % 16) * 16 + c / 4) :: ((c % 4) * 64 + d) :: sextetsToBytes rest
  | [a, b] => [a * 4 + b / 16]
  | [a, b, c] => [a * 4 + b / 16, (b % 16) * 16 + c / 4]
  | _ => []

/-- Node `Buffer.from(s, 'base64')`: decoding stops at the first `'='`
(everything after it is ignored — node's base64 decode loop terminates on
padding); before that point every character outside the alphabet is skipped;
the collected sextets are then regrouped.  It never fails: any input yields
some byte string. -/
def b64DecodeLenient (l : List Char) : List Nat :=
  sextetsToBytes ((l.takeWhile (fun c => c ≠ '=')).filterMap b64CharVal)

/-- UTF-8 decoding with U+FFFD replacement for malformed sequences, modeling
Node `buffer.toString()` via the WHATWG decoder: continuation bytes are
checked one at a time, the lead's range restriction applies to the first
continuation (E0/ED and F0/F4 specials), and on the first out-of-range byte
the maximal subpart consumed so far becomes a single U+FFFD with decoding
resuming at the offending byte; a sequence truncated by end of input is one
U+FFFD.  The `fuel` argument makes the recursion structural; at least one
byte is consumed per step, so any fuel at or above the list length yields
the fixpoint. -/
def utf8DecodeFuel : Nat → List Nat → List Char
  | _, [] => []
  | 0, _ => []
  | fuel + 1, b :: rest =>
    if b < 128 then Char.ofNat b :: utf8DecodeFuel fuel rest
    else if 194 ≤ b ∧ b ≤ 223 then
      match rest with
      | b2 :: rest2 =>
        if 128 ≤ b2 ∧ b2 ≤ 191 then
          Char.ofNat (64 * (b - 192) + (b2 - 128)) :: utf8DecodeFuel fuel rest2
        else '�' :: utf8DecodeFuel fuel (b2 :: rest2)
      | [] => ['�']
    else if 224 ≤ b ∧ b ≤ 239 then
      match rest with
      | b2 :: rest2 =>
        if (b = 224 ∧ 160 ≤ b2 ∧ b2 ≤ 191) ∨ (b = 237 ∧ 128 ≤ b2 ∧ b2 ≤ 159) ∨
            (b ≠ 224 ∧ b ≠ 237 ∧ 128 ≤ b2 ∧ b2 ≤ 191) then
          match rest2 with
          | b3 :: rest3 =>
            if 128 ≤ b3 ∧ b3 ≤ 191 then
              Char.ofNat (4096 * (b - 224) + 64 * (b2 - 128) + (b3 - 128)) ::
                utf8DecodeFuel fuel rest3
            else '�' :: utf8DecodeFuel fuel (b3 :: rest3)
          | [] => ['�']
        else '�' :: utf8DecodeFuel fuel (b2 :: rest2)
      | [] => ['�']
    else if 240 ≤ b ∧ b ≤ 244 then
      match rest with
      | b2 :: rest2 =>
        if (b = 240 ∧ 144 ≤ b2 ∧ b2 ≤ 191) ∨ (b = 244 ∧ 128 ≤ b2 ∧ b2 ≤ 143) ∨
            (b ≠ 240 ∧ b ≠ 244 ∧ 128 ≤ b2 ∧ b2 ≤ 191) then
          match rest2 with
          | b3 :: rest3 =>
            if 128 ≤ b3 ∧ b3 ≤ 191 then
              match rest3 with
              | b4 :: rest4 =>
                if 128 ≤ b4 ∧ b4 ≤ 191 then
                  Char.ofNat (262144 * (b - 240) + 4096 * (b2 - 128) + 64 * (b3 - 128) +
                    (b4 - 128)) :: utf8DecodeFuel fuel rest4
                else '�' :: utf8DecodeFuel fuel (b4 :: rest4)
              | [] => ['�']
            else '�' :: utf8DecodeFuel fuel (b3 :: rest3)
          | [] => ['�']
        else '�' :: utf8DecodeFuel fuel (b2 :: rest2)
      | [] => ['�']
    else '�' :: utf8DecodeFuel fuel rest

/-- UTF-8 decoding of a byte list (fuel instantiated to the list length). -/
def utf8Decode (l : List Nat) : List Char := utf8DecodeFuel l.length l

/-- Parsed Basic credentials. -/
structure Creds where
  user : String
  pass : String
deriving DecidableEq

/-- `parseBasicAuth` of src/security.js: `!header` (absent or empty) or a
missing `"Basic "` scheme yields `null`; otherwise base64-decode the rest
(leniently — it always yields bytes), UTF-8 decode, and split at the first
colon; no colon yields `null`. -/
def parseBasicAuth (header : Option String) : Option Creds :=
  match header with
  | none => none
  | some h =>
    if h = "" ∨ ¬("Basic ".data.isPrefixOf h.data) then none
    else
      let raw := utf8Decode (b64DecodeLenient (h.data.drop 6))
      if ':' ∈ raw then
        some ⟨⟨raw.takeWhile (fun c => c ≠ ':')⟩,
              ⟨(raw.dropWhile (fun c => c ≠ ':')).tail⟩⟩
      else none

/-- The decoded credential text `parseBasicAuth` splits: base64-decode
(leniently) everything after the 6-character `"Basic "` scheme tag, then
UTF-8-decode the bytes. -/
def basicDecoded (s : String) : List Char :=
  utf8Decode (b64DecodeLenient (s.data.drop 6))

/-- Replace the first occurrence of `pat` in `l` by nothing (JS
`String.prototype.replace` with a string pattern and empty replacement). -/
def replaceFirstL (l : List Char) (pat : List Char) : List Char :=
  match l with
  | [] => []
  | c :: rest => if pat.isPrefixOf l then l.drop pat.length else c :: replaceFirstL rest pat

/-- The per-request inputs the middleware consumes: the forwarded-address
header value, the connection address (`req.ip`), and the Authorization
header value (absent headers are `none`). -/
structure Request where
  xff : Option String
  ip : Option String
  authorization : Option String
deriving DecidableEq

/-- `getClientIP` of src/security.js: first comma token of the
`x-forwarded-for` header, trimmed; if that is empty (header absent, empty or
leading with an empty token), fall back to `req.ip` with the first
`"::ffff:"` occurrence removed. -/
def getClientIP (req : Request) : String :=
  let fwd : List Char := trimJs ((splitChar ',' (req.xff.getD "").data).headD [])
  if fwd ≠ [] then ⟨fwd⟩ else ⟨replaceFirstL (req.ip.getD "").data "::ffff:".data⟩

/-- A Gregorian calendar date (the date a luxon `DateTime` shows in the
configured zone). -/
structure CalDate where
  year : Nat
  month : Nat
  day : Nat
deriving DecidableEq

/-- Gregorian leap year. -/
def isLeap (y : Nat) : Bool := y % 4 = 0 && (y % 100 ≠ 0 || y % 400 = 0)

/-- Days in a Gregorian month. -/
def daysInMonth (y m : Nat) : Nat :=
  if m = 1 ∨ m = 3 ∨ m = 5 ∨ m = 7 ∨ m = 8 ∨ m = 10 ∨ m = 12 then 31
  else if m = 4 ∨ m = 6 ∨ m = 9 ∨ m = 11 then 30
  else if m = 2 then (if isLeap y then 29 else 28)
  else 0

/-- A well-formed calendar date. -/
def CalDate.Valid (d : CalDate) : Prop :=
  1 ≤ d.month ∧ d.month ≤ 12 ∧ 1 ≤ d.day ∧ d.day ≤ daysInMonth d.year d.month

instance (d : CalDate) : Decidable d.Valid := by unfold CalDate.Valid; infer_instance

/-- The calendar date one day earlier (luxon `minus (days 1)` in the same
zone). -/
def prevCalDay (d : CalDate) : CalDate :=
  if 1 < d.day then ⟨d.year, d.month, d.day - 1⟩
  else if 1 < d.month then ⟨d.year, d.month - 1, daysInMonth d.year (d.month - 1)⟩
  else ⟨d.year - 1, 12, 31⟩

/-- The character of one decimal digit. -/
def decDigitChar (k : Nat) : Char :=
  if k = 0 then '0' else if k = 1 then '1' else if k = 2 then '2' else if k = 3 then '3'
  else if k = 4 then '4' else if k = 5 then '5' else if k = 6 then '6' else if k = 7 then '7'
  else if k = 8 then '8' else '9'

/-- Decimal rendering of a natural number with structural fuel; the
exhausted-fuel case agrees with the base case for the values it can reach. -/
def decReprFuel : Nat → Nat → List Char
  | 0, n => [decDigitChar (n % 10)]
  | fuel + 1, n =>
    if n < 10 then [decDigitChar n] else decReprFuel fuel (n / 10) ++ [decDigitChar (n % 10)]

/-- Decimal rendering of a natural number (the digits luxon's `toFormat`
emits before padding); `n` itself always suffices as fuel. -/
def decRepr (n : Nat) : List Char := decReprFuel n n

/-- Zero-pad a decimal rendering on the left to width `w` (luxon `yyyy`,
`LL`, `dd`). -/
def padNum (w n : Nat) : List Char :=
  List.replicate (w - (decRepr n).length) '0' ++ decRepr n

/-- luxon `toFormat 'yyyyLLdd'`. -/
def yyyymmdd (d : CalDate) : String :=
  ⟨padNum 4 d.year ++ padNum 2 d.month ++ padNum 2 d.day⟩

/-- The startup configuration of src/security.js that the claims touch.
`passwordMode` is the already-uppercased `PASSWORD_MODE` value; the code
compares it to `"STATIC"` and treats everything else as daily. -/
structure GateConfig where
  basicUser : String
  passwordMode : String
  secret : String
  staticPassword : String
  graceYesterday : Bool
  allowlistIps : List String
deriving DecidableEq

/-- `todaysPassword` of src/security.js. -/
def todaysPassword (cfg : GateConfig) (now : CalDate) : String :=
  cfg.secret ++ "-" ++ yyyymmdd now

/-- `expectedPasswordMatches` of src/security.js, with the current instant
abstracted to the calendar date `now` it denotes in the configured zone. -/
def expectedPasswordMatches (cfg : GateConfig) (now : CalDate) (input : String) : Bool :=
  if cfg.passwordMode == "STATIC" then input == cfg.staticPassword
  else if input == todaysPassword cfg now then true
  else if cfg.graceYesterday && (input == todaysPassword cfg (prevCalDay now)) then true
  else false

/-- Lowercase hexadecimal digit (as emitted by `JSON.stringify` escapes). -/
def hexDigitLower (k : Nat) : Char :=
  if k < 10 then Char.ofNat (48 + k) else Char.ofNat (87 + k)

/-- `JSON.stringify` escaping of one character inside a string literal. -/
def jsonEscapeChar (c : Char) : List Char :=
  if c = '"' then ['\\', '"']
  else if c = '\\' then ['\\', '\\']
  else if c = '\x08' then ['\\', 'b']
  else if c = '\x09' then ['\\', 't']
  else if c = '\x0a' then ['\\', 'n']
  else if c = '\x0c' then ['\\', 'f']
  else if c = '\x0d' then ['\\', 'r']
  else if c.toNat < 32 then
    ['\\', 'u', '0', '0', hexDigitLower (c.toNat / 16), hexDigitLower (c.toNat % 16)]
  else [c]

/-- `JSON.stringify` of a string value. -/
def jsonQuote (s : String) : String :=
  ⟨'"' :: (s.data.map jsonEscapeChar).flatten ++ ['"']⟩

/-- `JSON.stringify` of the one-field object the notifier builds:
an opening brace, the quoted key `password`, a colon, the quoted value and a
closing brace, with no whitespace. -/
def jsonStringifyPasswordObj (p : String) : String :=
  "\x7b\"password\":" ++ jsonQuote p ++ "\x7d"

/-- The request body `sendPasswordToWebhook` of src/security.js POSTs at an
instant whose date in the configured zone is `d`:
`JSON.stringify (password := todaysPassword())` — always the daily
derivation, whatever `PASSWORD_MODE` is. -/
def sendPasswordToWebhookBody (cfg : GateConfig) (d : CalDate) : String :=
  jsonStringifyPasswordObj (todaysPassword cfg d)

/-- Observable outcome of the middleware for one request: pass through to
downstream handling, or terminate with a status, a body and an optional
`WWW-Authenticate` header. -/
inductive GateResult where
  | next : GateResult
  | respond (status : Nat) (body : String) (wwwAuthenticate : Option String) : GateResult
deriving DecidableEq

/-- The `challenge()` closure of the middleware. -/
def challengeResponse : GateResult :=
  .respond 401 "Authentication required" (some "Basic realm=\"SERP Viewer\"")

/-- The allow-list ranges the middleware builds once at startup. -/
def secureRanges (cfg : GateConfig) : List IPRange := buildRanges cfg.allowlistIps

/-- The request handler installed by `secure(app)` in src/security.js:
IP allow-list first, then Basic credentials, then username, then password;
`today` is the calendar date of the request instant in the configured zone. -/
def secureMiddleware (cfg : GateConfig) (today : CalDate) (req : Request) : GateResult :=
  if !(ipAllowed (getClientIP req) (secureRanges cfg)) then
    .respond 403 "Forbidden (IP not allowed)" none
  else
    match parseBasicAuth req.authorization with
    | none => challengeResponse
    | some creds =>
      if creds.user != cfg.basicUser then challengeResponse
      else if !(expectedPasswordMatches cfg today creds.pass) then challengeResponse
      else .next

/-- Modelled from the spec (§4.1): a strict decimal octet, `0`–`255`, used to
state what the spec calls a dotted-quad component ("any octet outside 0–255,
any non-numeric octet … yields invalid"). -/
def isOctetStrictL (l : List Char) : Bool :=
  decide (l ≠ []) && l.all isDig && decide (decVal l ≤ 255)

/-- Modelled from the spec (§4.1): a dotted-quad IPv4 address `a.b.c.d` with
four strict decimal octets. -/
def isDottedQuadStrictL (l : List Char) : Bool :=
  match splitChar '.' l with
  | [a, b, c, d] => isOctetStrictL a && isOctetStrictL b && isOctetStrictL c && isOctetStrictL d
  | _ => false

/-- Strict dotted-quad test on a `String`. -/
def isDottedQuadStrict (s : String) : Bool := isDottedQuadStrictL s.data

/-- Modelled from the spec (§4.1): the exact shape the spec says `parse`
accepts — `a.b.c.d/n` with `0 ≤ n ≤ 32`, or a bare `a.b.c.d`. -/
def specAcceptsCIDR (s : String) : Bool :=
  match splitChar '/' s.data with
  | [a] => isDottedQuadStrictL a
  | [a, b] => isDottedQuadStrictL a && decide (b ≠ []) && b.all isDig && decide (decVal b ≤ 32)
  | _ => false

/-- The acceptance condition `parseCIDR` actually implements: the first
`'/'`-segment passes the lenient octet coercion of `ipv4ToInt`, and the
second segment, when present, `parseInt`s to an integer in `[0, 32]`
(remaining segments are ignored; an absent segment means `/32`). -/
def parseCIDRAccepts (s : String) : Bool :=
  let parts := splitChar '/' s.data
  (ipv4ToIntL (parts.headD [])).isSome &&
    (match parts.tail.head? with
     | some b =>
       (match parseIntDecL b with
        | some n => decide (0 ≤ n) && decide (n ≤ 32)
        | none => false)
     | none => true)

/-! Helper lemmas about the JS primitive layer. -/

theorem char_ne_of_toNat {c d : Char} (h : c.toNat ≠ d.toNat) : c ≠ d :=
  fun he => h (he ▸ rfl)

theorem isDig_toNat {c : Char} (h : isDig c = true) : 48 ≤ c.toNat ∧ c.toNat ≤ 57 := by
  simpa only [isDig, Bool.and_eq_true, decide_eq_true_eq] using h

theorem isDig_not_white {c : Char} (h : isDig c = true) : jsStrWhite c = false := by
  obtain ⟨h1, h2⟩ := isDig_toNat h
  simp only [jsStrWhite, jsWhiteCodes, decide_eq_false_iff_not, List.mem_cons,
    List.not_mem_nil, or_false]
  omega

theorem dropWhile_head_false {p : Char → Bool} {l : List Char}
    (h : ∀ c ∈ l, p c = false) : l.dropWhile p = l := by
  cases l with
  | nil => rfl
  | cons a t =>
    rw [List.dropWhile_cons, h a (List.mem_cons_self a t)]
    simp

theorem trimJs_id {l : List Char} (h : ∀ c ∈ l, jsStrWhite c = false) : trimJs l = l := by
  rw [trimJs, dropWhile_head_false h,
    dropWhile_head_false (fun c hc => h c (List.mem_reverse.mp hc)), List.reverse_reverse]

theorem unsignedDecVal_digits (l : List Char) (h0 : l ≠ [])
    (h1 : ∀ c ∈ l, isDig c = true) : unsignedDecVal l = .num ((decVal l : Rat)) := by
  have hinf : l ≠ "Infinity".data := by
    intro he
    have : isDig 'I' = true := h1 'I' (by rw [he]; decide)
    exact absurd this (by decide)
  have htake : l.takeWhile isDig = l := List.takeWhile_eq_self_iff.mpr h1
  have hdrop : l.dropWhile isDig = [] := by
    rw [List.dropWhile_eq_nil_iff]
    intro x hx
    exact h1 x hx
  rw [unsignedDecVal, if_neg hinf]
  simp only [htake, hdrop]
  simp [h0]

theorem jsNumberL_digits (l : List Char) (h0 : l ≠ [])
    (h1 : ∀ c ∈ l, isDig c = true) : jsNumberL l = .num ((decVal l : Rat)) := by
  have htrim : trimJs l = l := trimJs_id (fun c hc => isDig_not_white (h1 c hc))
  obtain ⟨a, t, rfl⟩ : ∃ a t, l = a :: t := by
    cases l with
    | nil => exact absurd rfl h0
    | cons a t => exact ⟨a, t, rfl⟩
  obtain ⟨ha1, ha2⟩ := isDig_toNat (h1 a (List.mem_cons_self a t))
  have hplus : (a :: t).head? ≠ some '+' := by
    simp only [List.head?_cons, ne_eq, Option.some.injEq]
    exact char_ne_of_toNat (by simp; omega)
  have hminus : (a :: t).head? ≠ some '-' := by
    simp only [List.head?_cons, ne_eq, Option.some.injEq]
    exact char_ne_of_toNat (by simp; omega)
  have htake2 : ∀ c : Char, isDig c = false → (a :: t).take 2 ≠ ['0', c] := by
    intro c hc he
    have : c ∈ (a :: t).take 2 := by rw [he]; exact List.mem_cons_of_mem _ (List.mem_cons_self c [])
    have : c ∈ a :: t := List.mem_of_mem_take this
    rw [h1 c this] at hc
    exact absurd hc (by simp)
  rw [jsNumberL]
  simp only [htrim]
  rw [if_neg h0, if_neg hplus, if_neg hminus,
    if_neg (by rintro (h | h) <;> exact htake2 _ (by decide) h),
    if_neg (by rintro (h | h) <;> exact htake2 _ (by decide) h),
    if_neg (by rintro (h | h) <;> exact htake2 _ (by decide) h)]
  exact unsignedDecVal_digits _ h0 h1

theorem parseIntDecL_digits (l : List Char) (h0 : l ≠ [])
    (h1 : ∀ c ∈ l, isDig c = true) : parseIntDecL l = some ((decVal l : Int)) := by
  have hdrop : l.dropWhile jsStrWhite = l :=
    dropWhile_head_false (fun c hc => isDig_not_white (h1 c hc))
  obtain ⟨a, t, rfl⟩ : ∃ a t, l = a :: t := by
    cases l with
    | nil => exact absurd rfl h0
    | cons a t => exact ⟨a, t, rfl⟩
  obtain ⟨ha1, ha2⟩ := isDig_toNat (h1 a (List.mem_cons_self a t))
  have hplus : (a :: t).head? ≠ some '+' := by
    simp only [List.head?_cons, ne_eq, Option.some.injEq]
    exact char_ne_of_toNat (by simp; omega)
  have hminus : (a :: t).head? ≠ some '-' := by
    simp only [List.head?_cons, ne_eq, Option.some.injEq]
    exact char_ne_of_toNat (by simp; omega)
  have htake : (a :: t).takeWhile isDig = a :: t := List.takeWhile_eq_self_iff.mpr h1
  rw [parseIntDecL]
  simp only [hdrop]
  rw [if_neg hplus, if_neg hminus]
  simp only [htake, if_neg h0]

theorem splitCharCore_no_sep (sep : Char) (l : List Char) (h : sep ∉ l) :
    splitCharCore sep l = (l, []) := by
  induction l with
  | nil => rfl
  | cons a t ih =>
    have ha : a ≠ sep := fun he => h (he ▸ List.mem_cons_self a t)
    rw [splitCharCore]
    simp only [ih (fun hm => h (List.mem_cons_of_mem a hm)), if_neg ha]

theorem splitCharCore_append_sep (sep : Char) (l1 l2 : List Char) (h : sep ∉ l1) :
    splitCharCore sep (l1 ++ sep :: l2) =
      (l1, (splitCharCore sep l2).1 :: (splitCharCore sep l2).2) := by
  induction l1 with
  | nil => simp [splitCharCore]
  | cons a t ih =>
    have ha : a ≠ sep := fun he => h (he ▸ List.mem_cons_self a t)
    rw [List.cons_append, splitCharCore]
    simp only [ih (fun hm => h (List.mem_cons_of_mem a hm)), if_neg ha]

theorem splitChar_append_sep (sep : Char) (l1 l2 : List Char) (h : sep ∉ l1) :
    splitChar sep (l1 ++ sep :: l2) = l1 :: splitChar sep l2 := by
  rw [splitChar, splitChar, splitCharCore_append_sep sep l1 l2 h]

theorem splitChar_no_sep (sep : Char) (l : List Char) (h : sep ∉ l) :
    splitChar sep l = [l] := by
  rw [splitChar, splitCharCore_no_sep sep l h]

theorem mem_splitCharCore (sep : Char) (l : List Char) :
    ∀ c ∈ l, c = sep ∨ c ∈ (splitCharCore sep l).1 ∨
      ∃ p ∈ (splitCharCore sep l).2, c ∈ p := by
  induction l with
  | nil => intro c hc; exact absurd hc (List.not_mem_nil c)
  | cons a t ih =>
    intro c hc
    rw [splitCharCore]
    by_cases ha : a = sep
    · rw [if_pos ha]
      rcases List.mem_cons.mp hc with rfl | hct
      · exact Or.inl ha
      · rcases ih c hct with h1 | h2 | ⟨p, hp, hcp⟩
        · exact Or.inl h1
        · exact Or.inr (Or.inr ⟨_, List.mem_cons_self _ _, h2⟩)
        · exact Or.inr (Or.inr ⟨p, List.mem_cons_of_mem _ hp, hcp⟩)
    · rw [if_neg ha]
      rcases List.mem_cons.mp hc with rfl | hct
      · exact Or.inr (Or.inl (List.mem_cons_self _ _))
      · rcases ih c hct with h1 | h2 | ⟨p, hp, hcp⟩
        · exact Or.inl h1
        · exact Or.inr (Or.inl (List.mem_cons_of_mem _ h2))
        · exact Or.inr (Or.inr ⟨p, hp, hcp⟩)

theorem mem_splitChar (sep : Char) (l : List Char) :
    ∀ c ∈ l, c = sep ∨ ∃ p ∈ splitChar sep l, c ∈ p := by
  intro c hc
  rcases mem_splitCharCore sep l c hc with h1 | h2 | ⟨p, hp, hcp⟩
  · exact Or.inl h1
  · exact Or.inr ⟨_, List.mem_cons_self _ _, h2⟩
  · exact Or.inr ⟨p, List.mem_cons_of_mem _ hp, hcp⟩

/-! Helper lemmas about decimal rendering. -/

theorem decDigitChar_toNat {k : Nat} (h : k ≤ 9) : (decDigitChar k).toNat = 48 + k := by
  interval_cases k <;> rfl

theorem decDigitChar_isDig {k : Nat} (h : k ≤ 9) : isDig (decDigitChar k) = true := by
  interval_cases k <;> rfl

theorem decReprFuel_ne_nil (fuel n : Nat) : decReprFuel fuel n ≠ [] := by
  cases fuel with
  | zero => simp [decReprFuel]
  | succ f => rw [decReprFuel]; split <;> simp

theorem decRepr_ne_nil (n : Nat) : decRepr n ≠ [] := decReprFuel_ne_nil n n

theorem decReprFuel_digits (fuel : Nat) :
    ∀ n, ∀ c ∈ decReprFuel fuel n, isDig c = true := by
  induction fuel with
  | zero =>
    intro n c hc
    rw [decReprFuel] at hc
    rcases List.mem_singleton.mp hc with rfl
    exact decDigitChar_isDig (by omega)
  | succ f ih =>
    intro n c hc
    rw [decReprFuel] at hc
    split at hc
    · rcases List.mem_singleton.mp hc with rfl
      exact decDigitChar_isDig (by omega)
    · rcases List.mem_append.mp hc with h1 | h2
      · exact ih (n / 10) c h1
      · rcases List.mem_singleton.mp h2 with rfl
        exact decDigitChar_isDig (by omega)

theorem decRepr_digits (n : Nat) : ∀ c ∈ decRepr n, isDig c = true :=
  decReprFuel_digits n n

theorem decVal_append_digit (xs : List Char) (c : Char) :
    decVal (xs ++ [c]) = 10 * decVal xs + (c.toNat - 48) := by
  simp [decVal, List.foldl_append]

theorem decVal_decReprFuel (fuel : Nat) :
    ∀ n, n < 10 ^ (fuel + 1) → decVal (decReprFuel fuel n) = n := by
  induction fuel with
  | zero =>
    intro n hn
    rw [decReprFuel]
    simp only [decVal, List.foldl_cons, List.foldl_nil]
    rw [decDigitChar_toNat (by omega)]
    rw [pow_one] at hn
    omega
  | succ f ih =>
    intro n hn
    rw [decReprFuel]
    split
    · next h =>
      simp only [decVal, List.foldl_cons, List.foldl_nil]
      rw [decDigitChar_toNat (by omega)]
      omega
    · next h =>
      have hdiv : n / 10 < 10 ^ (f + 1) := by
        rw [Nat.div_lt_iff_lt_mul (by omega)]
        calc n < 10 ^ (f + 1 + 1) := hn
        _ = 10 ^ (f + 1) * 10 := by ring
      rw [decVal_append_digit, ih (n / 10) hdiv, decDigitChar_toNat (by omega)]
      omega

theorem decVal_decRepr (n : Nat) : decVal (decRepr n) = n :=
  decVal_decReprFuel n n
    (lt_of_lt_of_le (Nat.lt_pow_self (by omega) n)
      (Nat.pow_le_pow_right (by omega) (by omega)))

theorem decReprFuel_length_le (fuel : Nat) :
    ∀ n k, 1 ≤ k → n < 10 ^ k → (decReprFuel fuel n).length ≤ k := by
  induction fuel with
  | zero =>
    intro n k hk _
    rw [decReprFuel]
    simpa using hk
  | succ f ih =>
    intro n k hk hn
    rw [decReprFuel]
    split
    · simpa using hk
    · next h =>
      have hk2 : 2 ≤ k := by
        by_contra hlt
        have hke : k = 1 := by omega
        subst hke
        rw [pow_one] at hn
        omega
      have hdiv : n / 10 < 10 ^ (k - 1) := by
        rw [Nat.div_lt_iff_lt_mul (by omega)]
        calc n < 10 ^ k := hn
        _ = 10 ^ (k - 1) * 10 := by rw [← pow_succ]; congr 1; omega
      have := ih (n / 10) (k - 1) (by omega) hdiv
      simp only [List.length_append, List.length_cons, List.length_nil]
      omega

theorem decRepr_length_le (n k : Nat) (hk : 1 ≤ k) (h : n < 10 ^ k) :
    (decRepr n).length ≤ k := decReprFuel_length_le n n k hk h

/-! Helper lemmas about 32-bit masks. -/

theorem nat_le_lor (x y : Nat) : x ≤ x ||| y :=
  Nat.le_of_testBit fun i h => by rw [Nat.testBit_or, h, Bool.true_or]

theorem le_and_or_compl (v n : Nat) (hv : v < 2 ^ 32) (hn : n ≤ 32) :
    v ≤ (v &&& (2 ^ 32 - 2 ^ (32 - n))) ||| (2 ^ (32 - n) - 1) := by
  apply Nat.le_of_testBit
  intro i hi
  rw [Nat.testBit_or]
  by_cases h1 : i < 32 - n
  · rw [Nat.testBit_two_pow_sub_one]
    simp [h1]
  · by_cases h2 : i < 32
    · have hmask : 2 ^ 32 - 2 ^ (32 - n) = (2 ^ n - 1) <<< (32 - n) := by
        rw [Nat.shiftLeft_eq, Nat.sub_mul, ← pow_add, one_mul]
        congr 2
        omega
      have hbit : (2 ^ 32 - 2 ^ (32 - n)).testBit i = true := by
        rw [hmask, Nat.testBit_shiftLeft, Nat.testBit_two_pow_sub_one]
        have : i ≥ 32 - n := by omega
        have : i - (32 - n) < n := by omega
        simp_all
      rw [Nat.testBit_and, hi, hbit]
      simp
    · have : v < 2 ^ i := lt_of_lt_of_le hv (Nat.pow_le_pow_right (by omega) (by omega))
      rw [Nat.testBit_lt_two_pow this] at hi
      exact absurd hi (by simp)

/-! Supporting lemmas for the date-format claims. -/

theorem string_mk_length (l : List Char) : (String.mk l).length = l.length := rfl

theorem padNum_length (w n : Nat) (h : (decRepr n).length ≤ w) :
    (padNum w n).length = w := by
  simp only [padNum, List.length_append, List.length_replicate]
  omega

theorem daysInMonth_le31 (y m : Nat) : daysInMonth y m ≤ 31 := by
  rw [daysInMonth]
  split_ifs <;> omega

theorem yyyymmdd_length {d : CalDate} (hv : d.Valid) (hy : d.year ≤ 9999) :
    (yyyymmdd d).length = 8 := by
  obtain ⟨h1, h2, h3, h4⟩ := hv
  rw [yyyymmdd, string_mk_length]
  simp only [List.length_append]
  rw [padNum_length 4 d.year (decRepr_length_le _ 4 (by omega) (by omega)),
    padNum_length 2 d.month (decRepr_length_le _ 2 (by omega) (by omega)),
    padNum_length 2 d.day (decRepr_length_le _ 2 (by omega)
      (by have := daysInMonth_le31 d.year d.month; omega))]

/-- C1: in Static mode `expectedPasswordMatches` accepts exactly the
configured static password, independently of the current instant; in Daily
mode it accepts exactly `secret ++ "-" ++ yyyymmdd` of the request date, or —
when grace is enabled — the same derivation for the previous calendar day;
no other candidate matches.  On valid dates with a four-digit year, the date
part is the 8-digit `YYYYMMDD` string. -/
theorem expectedPasswordMatches_spec (cfg : GateConfig) (d : CalDate) (input : String) :
    (expectedPasswordMatches cfg d input = true ↔
      (if cfg.passwordMode = "STATIC" then input = cfg.staticPassword
       else (input = cfg.secret ++ "-" ++ yyyymmdd d ∨
         (cfg.graceYesterday = true ∧
           input = cfg.secret ++ "-" ++ yyyymmdd (prevCalDay d))))) ∧
    (cfg.passwordMode = "STATIC" →
      ∀ d2, expectedPasswordMatches cfg d2 input = expectedPasswordMatches cfg d input) ∧
    (d.Valid → d.year ≤ 9999 → (yyyymmdd d).length = 8) := by
  refine ⟨?_, ?_, fun hv hy => yyyymmdd_length hv hy⟩
  · by_cases hm : cfg.passwordMode = "STATIC"
    · simp [expectedPasswordMatches, hm]
    · simp only [expectedPasswordMatches, todaysPassword, if_neg hm]
      rw [if_neg (by simpa using hm)]
      by_cases h1 : input = cfg.secret ++ "-" ++ yyyymmdd d
      · simp [h1]
      · by_cases hg : cfg.graceYesterday <;>
          by_cases h2 : input = cfg.secret ++ "-" ++ yyyymmdd (prevCalDay d) <;>
          simp [h1, h2, hg]
  · intro hm d2
    simp [expectedPasswordMatches, hm]

/-- C1 witness: a static configuration accepts its static password, and a
concrete valid date formats to 8 digits. -/
theorem expectedPasswordMatches_spec_witness :
    (expectedPasswordMatches ⟨"sales", "STATIC", "s", "pw", false, []⟩ ⟨2024, 5, 7⟩ "pw" = true) ∧
    (yyyymmdd ⟨2024, 5, 7⟩).length = 8 :=
  ⟨(expectedPasswordMatches_spec ⟨"sales", "STATIC", "s", "pw", false, []⟩ ⟨2024, 5, 7⟩ "pw").1.mpr
      (by decide),
    (expectedPasswordMatches_spec ⟨"sales", "STATIC", "s", "pw", false, []⟩ ⟨2024, 5, 7⟩ "pw").2.2
      (by decide) (by decide)⟩

/-- C5: the notifier's POST body is exactly the JSON object with the single
key `password` whose value is `secret ++ "-" ++ yyyymmdd` of the fire date;
in Daily mode that very string is accepted by the verification path at the
same instant; and the body is unchanged under any password mode or static
password, because the notifier always uses the Daily derivation. -/
theorem sendPasswordToWebhook_spec (cfg : GateConfig) (d : CalDate) :
    sendPasswordToWebhookBody cfg d =
      jsonStringifyPasswordObj (cfg.secret ++ "-" ++ yyyymmdd d) ∧
    (cfg.passwordMode ≠ "STATIC" →
      expectedPasswordMatches cfg d (todaysPassword cfg d) = true) ∧
    (∀ mode staticPw, sendPasswordToWebhookBody
        { cfg with passwordMode := mode, staticPassword := staticPw } d =
      sendPasswordToWebhookBody cfg d) := by
  refine ⟨rfl, ?_, fun mode staticPw => rfl⟩
  intro hm
  simp [expectedPasswordMatches, hm]

/-- C5 witness: a concrete daily configuration at a concrete date. -/
theorem sendPasswordToWebhook_spec_witness :
    sendPasswordToWebhookBody ⟨"sales", "DAILY", "changeme", "supersecret", false, []⟩
        ⟨2024, 5, 7⟩ =
      jsonStringifyPasswordObj ("changeme" ++ "-" ++ yyyymmdd ⟨2024, 5, 7⟩) ∧
    expectedPasswordMatches ⟨"sales", "DAILY", "changeme", "supersecret", false, []⟩ ⟨2024, 5, 7⟩
      (todaysPassword ⟨"sales", "DAILY", "changeme", "supersecret", false, []⟩ ⟨2024, 5, 7⟩) =
      true :=
  ⟨(sendPasswordToWebhook_spec ⟨"sales", "DAILY", "changeme", "supersecret", false, []⟩
      ⟨2024, 5, 7⟩).1,
    (sendPasswordToWebhook_spec ⟨"sales", "DAILY", "changeme", "supersecret", false, []⟩
      ⟨2024, 5, 7⟩).2.1 (by decide)⟩

/-- C7: `buildRanges` is exactly `filterMap parseCIDR` — the parseable
entries in their original order — and dropping any unparseable entry leaves
the result unchanged; being a total function it never fails on any list. -/
theorem buildRanges_spec (l l1 l2 : List String) (bad : String) :
    buildRanges l = l.filterMap parseCIDR ∧
    (parseCIDR bad = none →
      buildRanges (l1 ++ bad :: l2) = buildRanges (l1 ++ l2)) := by
  have key : ∀ m : List String, buildRanges m = m.filterMap parseCIDR := by
    intro m
    rw [buildRanges, List.filterMap_map]
    rfl
  refine ⟨key l, fun hbad => ?_⟩
  rw [key, key, List.filterMap_append, List.filterMap_append, List.filterMap_cons, hbad]

/-- C7 witness: a malformed middle entry is silently dropped. -/
theorem buildRanges_spec_witness :
    parseCIDR "not.an.ip" = none ∧
    buildRanges (["10.0.0.5/32"] ++ "not.an.ip" :: ["1.2.3.4"]) =
      buildRanges (["10.0.0.5/32"] ++ ["1.2.3.4"]) :=
  ⟨by decide,
    (buildRanges_spec [] ["10.0.0.5/32"] ["1.2.3.4"] "not.an.ip").2 (by decide)⟩

/-- C10: `parseBasicAuth` is total — for every header value it returns either
`none` or a user/password pair, with no "undecodable payload" outcome, since
the lenient base64 decoding always yields some byte string.  It returns
`none` exactly when the header is missing (or empty, which JS `!header` also
catches and which equally fails the scheme test), does not start with
`"Basic "`, or the decoded remainder contains no colon; otherwise the user is
the text before the first colon and the password everything after it. -/
theorem parseBasicAuth_total_spec (h : Option String) :
    (parseBasicAuth h = none ↔
      h = none ∨ ∃ s, h = some s ∧
        (("Basic ".data.isPrefixOf s.data) = false ∨ ':' ∉ basicDecoded s)) ∧
    (∀ s, h = some s → ("Basic ".data.isPrefixOf s.data) = true → ':' ∈ basicDecoded s →
      parseBasicAuth h =
        some ⟨⟨(basicDecoded s).takeWhile (fun c => c ≠ ':')⟩,
              ⟨((basicDecoded s).dropWhile (fun c => c ≠ ':')).tail⟩⟩) := by
  cases h with
  | none => simp [parseBasicAuth]
  | some s =>
    have hempty : s = "" → ("Basic ".data.isPrefixOf s.data) = false := by
      rintro rfl; rfl
    constructor
    · rw [parseBasicAuth]
      by_cases hp : ("Basic ".data.isPrefixOf s.data) = true
      · have hcond : ¬(s = "" ∨ ¬("Basic ".data.isPrefixOf s.data = true)) := by
          rintro (he | hnp)
          · rw [hempty he] at hp; cases hp
          · exact hnp hp
        rw [if_neg hcond]
        by_cases hc : ':' ∈ utf8Decode (b64DecodeLenient (s.data.drop 6))
        · rw [if_pos hc]
          simp [basicDecoded, hp, hc]
        · rw [if_neg hc]
          simp [basicDecoded, hp, hc]
      · rw [if_pos (Or.inr hp)]
        exact iff_of_true rfl (Or.inr ⟨s, rfl, Or.inl (Bool.eq_false_iff.mpr hp)⟩)
    · intro s2 he hp hc
      rcases Option.some.inj he with rfl
      have hcond : ¬(s = "" ∨ ¬("Basic ".data.isPrefixOf s.data = true)) := by
        rintro (he2 | hnp)
        · rw [hempty he2] at hp; cases hp
        · exact hnp hp
      have hc2 : ':' ∈ utf8Decode (b64DecodeLenient (s.data.drop 6)) := hc
      rw [parseBasicAuth, if_neg hcond]
      dsimp only
      rw [if_pos hc2]
      rfl

/-- C10 witness: a concrete well-formed header splits at the first colon
(the password may itself contain colons), and the three `none` causes. -/
theorem parseBasicAuth_total_spec_witness :
    parseBasicAuth (some "Basic dXNlcjpwYToycw==") = some ⟨"user", "pa:2s"⟩ ∧
    parseBasicAuth none = none ∧
    parseBasicAuth (some "Bearer xyz") = none ∧
    parseBasicAuth (some "Basic YWJj") = none := by
  refine ⟨?_, ?_, ?_, ?_⟩
  · have := (parseBasicAuth_total_spec (some "Basic dXNlcjpwYToycw==")).2
      "Basic dXNlcjpwYToycw==" rfl (by decide) (by decide)
    rw [this]
    decide
  · exact (parseBasicAuth_total_spec none).1.mpr (Or.inl rfl)
  · exact (parseBasicAuth_total_spec (some "Bearer xyz")).1.mpr
      (Or.inr ⟨"Bearer xyz", rfl, Or.inl (by decide)⟩)
  · exact (parseBasicAuth_total_spec (some "Basic YWJj")).1.mpr
      (Or.inr ⟨"Basic YWJj", rfl, Or.inr (by decide)⟩)

/-- C6 counterexample: with the forwarded header present but beginning with a
comma, its first comma-separated token trims to the empty string, and the
resolver does not return it — it falls back to the connection address — so
"returns the first token whenever that header is present" is false as
stated. -/
theorem getClientIP_forwarded_counterexample :
    getClientIP ⟨some ",10.0.0.5", some "9.9.9.9", none⟩ = "9.9.9.9" ∧
    (⟨trimJs ((splitChar ',' (",10.0.0.5" : String).data).headD [])⟩ : String) = "" ∧
    ("9.9.9.9" : String) ≠ "" := by decide

/-- C6 (amended): the resolver returns the trimmed first comma-token of the
forwarded header whenever that token is nonempty after trimming; when the
header is absent or its first token is blank it returns the connection
address with the first occurrence of `"::ffff:"` removed — in particular a
leading IPv4-mapped-IPv6 prefix is stripped. -/
theorem getClientIP_spec (req : Request) :
    (∀ h rest, req.xff = some h →
      trimJs ((splitChar ',' h.data).headD []) = rest → rest ≠ [] →
      getClientIP req = ⟨rest⟩) ∧
    (trimJs ((splitChar ',' (req.xff.getD "").data).headD []) = [] →
      getClientIP req = ⟨replaceFirstL (req.ip.getD "").data "::ffff:".data⟩) ∧
    (∀ tail : List Char, replaceFirstL ("::ffff:".data ++ tail) "::ffff:".data = tail) := by
  refine ⟨?_, ?_, ?_⟩
  · intro h rest hxff htrim hne
    rw [getClientIP, hxff]
    simp only [Option.getD_some]
    rw [htrim, if_pos hne]
  · intro htrim
    rw [getClientIP, htrim, if_neg (by simp)]
  · intro tail
    have hsh : "::ffff:".data ++ tail = ':' :: (':' :: 'f' :: 'f' :: 'f' :: 'f' :: ':' :: tail) :=
      rfl
    rw [hsh, replaceFirstL]
    rw [if_pos (List.isPrefixOf_iff_prefix.mpr ⟨tail, hsh.symm⟩)]
    exact List.drop_left _ _

/-- C6 witness: a padded forwarded header resolves to its trimmed first
token; an absent header resolves to the connection address with the
IPv4-mapped prefix stripped. -/
theorem getClientIP_spec_witness :
    getClientIP ⟨some " 10.0.0.5 , 9.9.9.9", some "1.1.1.1", none⟩ = ⟨"10.0.0.5".data⟩ ∧
    getClientIP ⟨none, some "::ffff:1.2.3.4", none⟩ =
      ⟨replaceFirstL "::ffff:1.2.3.4".data "::ffff:".data⟩ ∧
    replaceFirstL ("::ffff:".data ++ "1.2.3.4".data) "::ffff:".data = "1.2.3.4".data :=
  ⟨(getClientIP_spec ⟨some " 10.0.0.5 , 9.9.9.9", some "1.1.1.1", none⟩).1
      " 10.0.0.5 , 9.9.9.9" "10.0.0.5".data rfl (by decide) (by decide),
    (getClientIP_spec ⟨none, some "::ffff:1.2.3.4", none⟩).2.1 (by decide),
    (getClientIP_spec ⟨none, some "::ffff:1.2.3.4", none⟩).2.2 "1.2.3.4".data⟩

/-- C2: the middleware evaluates the IP check strictly first — when the
resolved address is not allowed, the response is the fixed 403 with no
`WWW-Authenticate` header, whatever the Authorization header holds (it is
never examined); when the IP is allowed, every credential failure (missing
or malformed Basic header, wrong username, wrong password) produces the one
identical 401 challenge with the fixed realm header; only when IP, username
and password all pass is the request forwarded unchanged. -/
theorem secure_gate_order_spec (cfg : GateConfig) (today : CalDate) (req : Request) :
    (ipAllowed (getClientIP req) (secureRanges cfg) = false →
      ∀ auth, secureMiddleware cfg today { req with authorization := auth } =
        .respond 403 "Forbidden (IP not allowed)" none) ∧
    (ipAllowed (getClientIP req) (secureRanges cfg) = true →
      (parseBasicAuth req.authorization = none →
        secureMiddleware cfg today req =
          .respond 401 "Authentication required" (some "Basic realm=\"SERP Viewer\"")) ∧
      (∀ c, parseBasicAuth req.authorization = some c → c.user ≠ cfg.basicUser →
        secureMiddleware cfg today req =
          .respond 401 "Authentication required" (some "Basic realm=\"SERP Viewer\"")) ∧
      (∀ c, parseBasicAuth req.authorization = some c → c.user = cfg.basicUser →
        expectedPasswordMatches cfg today c.pass = false →
        secureMiddleware cfg today req =
          .respond 401 "Authentication required" (some "Basic realm=\"SERP Viewer\"")) ∧
      (∀ c, parseBasicAuth req.authorization = some c → c.user = cfg.basicUser →
        expectedPasswordMatches cfg today c.pass = true →
        secureMiddleware cfg today req = .next)) := by
  have hip : ∀ auth, getClientIP { req with authorization := auth } = getClientIP req :=
    fun _ => rfl
  constructor
  · intro hdeny auth
    rw [secureMiddleware, hip auth, hdeny]
    rfl
  · intro hallow
    refine ⟨?_, ?_, ?_, ?_⟩
    · intro hnone
      rw [secureMiddleware, hallow, hnone]
      rfl
    · intro c hsome hne
      rw [secureMiddleware, hallow, hsome]
      simp only [Bool.not_true, Bool.false_eq_true, if_false]
      rw [if_pos (by simpa using hne)]
      rfl
    · intro c hsome heq hfail
      rw [secureMiddleware, hallow, hsome]
      simp only [Bool.not_true, Bool.false_eq_true, if_false]
      rw [if_neg (by simp [heq]), hfail]
      rfl
    · intro c hsome heq hok
      rw [secureMiddleware, hallow, hsome]
      simp only [Bool.not_true, Bool.false_eq_true, if_false]
      rw [if_neg (by simp [heq]), hok]
      rfl

/-- C2 witness: a concrete allow-listed request with good credentials passes
through; turning off the allow-list match yields the 403 for any
Authorization value; each credential failure yields the same 401. -/
theorem secure_gate_order_spec_witness :
    secureMiddleware ⟨"sales", "STATIC", "s", "pw", false, ["10.0.0.5/32"]⟩ ⟨2024, 5, 7⟩
      ⟨some "10.0.0.6", none, some "Basic c2FsZXM6Zm9v"⟩ =
        .respond 403 "Forbidden (IP not allowed)" none ∧
    secureMiddleware ⟨"sales", "STATIC", "s", "pw", false, ["10.0.0.5/32"]⟩ ⟨2024, 5, 7⟩
      ⟨some "10.0.0.5", none, none⟩ =
        .respond 401 "Authentication required" (some "Basic realm=\"SERP Viewer\"") ∧
    secureMiddleware ⟨"sales", "STATIC", "s", "pw", false, ["10.0.0.5/32"]⟩ ⟨2024, 5, 7⟩
      ⟨some "10.0.0.5", none, some "Basic c2FsZXM6YmFy"⟩ =
        .respond 401 "Authentication required" (some "Basic realm=\"SERP Viewer\"") ∧
    secureMiddleware ⟨"sales", "STATIC", "s", "pw", false, ["10.0.0.5/32"]⟩ ⟨2024, 5, 7⟩
      ⟨some "10.0.0.5", none, some "Basic c2FsZXM6cHc="⟩ = .next :=
  ⟨(secure_gate_order_spec ⟨"sales", "STATIC", "s", "pw", false, ["10.0.0.5/32"]⟩ ⟨2024, 5, 7⟩
      ⟨some "10.0.0.6", none, some "Basic c2FsZXM6Zm9v"⟩).1 (by decide)
      (some "Basic c2FsZXM6Zm9v"),
    ((secure_gate_order_spec ⟨"sales", "STATIC", "s", "pw", false, ["10.0.0.5/32"]⟩ ⟨2024, 5, 7⟩
      ⟨some "10.0.0.5", none, none⟩).2 (by decide)).1 (by decide),
    ((secure_gate_order_spec ⟨"sales", "STATIC", "s", "pw", false, ["10.0.0.5/32"]⟩ ⟨2024, 5, 7⟩
      ⟨some "10.0.0.5", none, some "Basic c2FsZXM6YmFy"⟩).2 (by decide)).2.2.1 ⟨"sales", "bar"⟩
      (by decide) (by decide) (by decide),
    ((secure_gate_order_spec ⟨"sales", "STATIC", "s", "pw", false, ["10.0.0.5/32"]⟩ ⟨2024, 5, 7⟩
      ⟨some "10.0.0.5", none, some "Basic c2FsZXM6cHc="⟩).2 (by decide)).2.2.2 ⟨"sales", "pw"⟩
      (by decide) (by decide) (by decide)⟩

/-- C9: at one instant, for two requests resolving to the same allowed
client address whose Basic credentials carry the same username, if the two
candidate passwords have the same match outcome then the middleware's
observable responses are identical — the password value itself never flows
into the response. -/
theorem password_noninterference (cfg : GateConfig) (today : CalDate)
    (r1 r2 : Request) (u p1 p2 : String)
    (hip : getClientIP r1 = getClientIP r2)
    (hallow : ipAllowed (getClientIP r1) (secureRanges cfg) = true)
    (h1 : parseBasicAuth r1.authorization = some ⟨u, p1⟩)
    (h2 : parseBasicAuth r2.authorization = some ⟨u, p2⟩)
    (hmatch : expectedPasswordMatches cfg today p1 = expectedPasswordMatches cfg today p2) :
    secureMiddleware cfg today r1 = secureMiddleware cfg today r2 := by
  have hallow2 : ipAllowed (getClientIP r2) (secureRanges cfg) = true := hip ▸ hallow
  rw [secureMiddleware, secureMiddleware, hallow, hallow2, h1, h2]
  simp only [Bool.not_true, Bool.false_eq_true, if_false]
  rw [hmatch]

/-- C9 witness: two concrete requests from the same allowed address with the
same username and two different wrong passwords receive the same response. -/
theorem password_noninterference_witness :
    secureMiddleware ⟨"sales", "STATIC", "s", "pw", false, ["10.0.0.5/32"]⟩ ⟨2024, 5, 7⟩
      ⟨some "10.0.0.5", none, some "Basic c2FsZXM6Zm9v"⟩ =
    secureMiddleware ⟨"sales", "STATIC", "s", "pw", false, ["10.0.0.5/32"]⟩ ⟨2024, 5, 7⟩
      ⟨some "10.0.0.5", none, some "Basic c2FsZXM6YmFy"⟩ :=
  password_noninterference ⟨"sales", "STATIC", "s", "pw", false, ["10.0.0.5/32"]⟩ ⟨2024, 5, 7⟩
    ⟨some "10.0.0.5", none, some "Basic c2FsZXM6Zm9v"⟩
    ⟨some "10.0.0.5", none, some "Basic c2FsZXM6YmFy"⟩
    "sales" "foo" "bar" (by decide) (by decide) (by decide) (by decide) (by decide)

/-- C3 counterexample: `"1.2.3."` is not a dotted-quad IPv4 address (its
fourth component is empty), yet `ipAllowed` accepts it against the range of
`1.2.3.0/24`, because JS `Number('')` is `0`; so "true iff the address parses
as a dotted-quad IPv4 inside some range" is false as stated. -/
theorem ipAllowed_dotted_quad_counterexample :
    ipAllowed "1.2.3." (buildRanges ["1.2.3.0/24"]) = true ∧
    isDottedQuadStrict "1.2.3." = false := by decide

/-- C3 (amended): `ipAllowed` returns true iff the candidate is accepted by
the code's lenient octet coercion (JS `Number` of each dot-separated
component — so empty or whitespace components count as 0, and signed, hex,
octal, binary and exponent forms are admitted) with its 32-bit value inside
at least one range, a union over the set; it returns false for every
candidate when the range set is empty, and false whenever the coercion
rejects the candidate (every IPv6 literal in particular), failing closed. -/
theorem ipAllowed_spec (ip : String) (ranges : List IPRange) :
    (ipAllowed ip ranges = true ↔
      ∃ v, ipv4ToInt ip = some v ∧ ∃ r ∈ ranges, r.start ≤ v ∧ v ≤ r.stop) ∧
    ipAllowed ip [] = false ∧
    (ipv4ToInt ip = none → ipAllowed ip ranges = false) := by
  refine ⟨?_, ?_, ?_⟩
  · rw [ipAllowed]
    cases hv : ipv4ToInt ip with
    | none => simp
    | some v => simp [List.any_eq_true]
  · rw [ipAllowed]
    cases ipv4ToInt ip <;> simp
  · intro h
    rw [ipAllowed, h]

/-- C3 witness: an IPv6 literal is rejected against any ranges, an empty
range set rejects a well-formed address, and a member address is accepted. -/
theorem ipAllowed_spec_witness :
    ipv4ToInt "::1" = none ∧
    ipAllowed "::1" [⟨0, 4294967295⟩] = false ∧
    ipAllowed "10.0.0.5" [] = false ∧
    ipAllowed "10.0.0.5" (buildRanges ["10.0.0.0/24"]) = true :=
  ⟨by decide,
    (ipAllowed_spec "::1" [⟨0, 4294967295⟩]).2.2 (by decide),
    (ipAllowed_spec "10.0.0.5" []).2.1,
    (ipAllowed_spec "10.0.0.5" (buildRanges ["10.0.0.0/24"])).1.mpr
      ⟨167772165, by decide, ⟨167772160, 167772415⟩, by decide, by decide, by decide⟩⟩

/-! Supporting lemmas for the CIDR parsing claims. -/

theorem jsToUint32_le_255 (v : JSNum) (h : jsNumIsBad v = false) : jsToUint32 v ≤ 255 := by
  cases v with
  | num q =>
    simp only [jsNumIsBad, Bool.or_eq_false_iff, decide_eq_false_iff_not, not_lt] at h
    obtain ⟨h0, h255⟩ := h
    have hfe : ratTrunc q = ⌊q⌋ := by rw [ratTrunc, if_neg (not_lt.mpr h0)]; rfl
    have ht0 : 0 ≤ ratTrunc q := by rw [hfe]; exact Int.floor_nonneg.mpr h0
    have ht255 : ratTrunc q ≤ 255 := by
      rw [hfe]
      calc ⌊q⌋ ≤ ⌊(255 : Rat)⌋ := Int.floor_le_floor h255
        _ = 255 := by norm_num
    simp only [jsToUint32]
    rw [Int.emod_eq_of_lt ht0 (by omega)]
    omega
  | nan => simp [jsToUint32]
  | posInf => simp [jsToUint32]
  | negInf => simp [jsToUint32]

theorem jsNumIsBad_natCast (k : Nat) (h : k ≤ 255) :
    jsNumIsBad (.num ((k : Rat))) = false := by
  simp only [jsNumIsBad, Bool.or_eq_false_iff, decide_eq_false_iff_not, not_lt]
  constructor
  · exact_mod_cast Nat.zero_le k
  · exact_mod_cast h

theorem jsToUint32_natCast (k : Nat) (hk : k < 4294967296) :
    jsToUint32 (.num ((k : Rat))) = k := by
  have h0 : ¬((k : Rat) < 0) := not_lt.mpr (by exact_mod_cast Nat.zero_le k)
  have hfe : ratTrunc ((k : Nat) : Rat) = (k : Int) := by
    rw [ratTrunc, if_neg h0]
    show ⌊((k : Nat) : Rat)⌋ = (k : Int)
    exact Int.floor_natCast k
  simp only [jsToUint32, hfe]
  rw [Int.emod_eq_of_lt (by omega) (by exact_mod_cast hk)]
  omega

theorem ipv4ToIntL_eq (l : List Char) (a b c d : JSNum)
    (hm : (splitChar '.' l).map jsNumberL = [a, b, c, d])
    (ha : jsNumIsBad a = false) (hb : jsNumIsBad b = false)
    (hc : jsNumIsBad c = false) (hd : jsNumIsBad d = false) :
    ipv4ToIntL l = some (jsToUint32 a * 2 ^ 24 + jsToUint32 b * 2 ^ 16 +
      jsToUint32 c * 2 ^ 8 + jsToUint32 d) ∧
    jsToUint32 a * 2 ^ 24 + jsToUint32 b * 2 ^ 16 + jsToUint32 c * 2 ^ 8 + jsToUint32 d
      < 2 ^ 32 := by
  have ba := jsToUint32_le_255 a ha
  have bb := jsToUint32_le_255 b hb
  have bc := jsToUint32_le_255 c hc
  have bd := jsToUint32_le_255 d hd
  have p24 : (2 : Nat) ^ 24 = 16777216 := by norm_num
  have p16 : (2 : Nat) ^ 16 = 65536 := by norm_num
  have p8 : (2 : Nat) ^ 8 = 256 := by norm_num
  have p32 : (2 : Nat) ^ 32 = 4294967296 := by norm_num
  constructor
  · rw [ipv4ToIntL, hm]
    dsimp only
    rw [ha, hb, hc, hd]
    simp only [Bool.or_self, Bool.false_eq_true, if_false]
    rw [p24, p16, p8, p32]
    rw [Nat.mod_eq_of_lt (by omega), Nat.mod_eq_of_lt (by omega),
      Nat.mod_eq_of_lt (by omega), Nat.mod_eq_of_lt (by omega), Nat.mod_eq_of_lt (by omega)]
  · rw [p24, p16, p8, p32]
    omega

theorem isOctetStrict_parts {o : List Char} (h : isOctetStrictL o = true) :
    o ≠ [] ∧ (∀ c ∈ o, isDig c = true) ∧ decVal o ≤ 255 := by
  simp only [isOctetStrictL, Bool.and_eq_true, decide_eq_true_eq, List.all_eq_true] at h
  exact ⟨h.1.1, h.1.2, h.2⟩

theorem ipv4ToIntL_strict (l : List Char) (h : isDottedQuadStrictL l = true) :
    ∃ v, ipv4ToIntL l = some v ∧ v < 2 ^ 32 := by
  rw [isDottedQuadStrictL] at h
  rcases hsp : splitChar '.' l with _ | ⟨o0, _ | ⟨o1, _ | ⟨o2, _ | ⟨o3, _ | ⟨o4, rest⟩⟩⟩⟩⟩ <;>
    rw [hsp] at h
  case nil => exact absurd h (by simp)
  case cons.nil => exact absurd h (by simp)
  case cons.cons.nil => exact absurd h (by simp)
  case cons.cons.cons.nil => exact absurd h (by simp)
  case cons.cons.cons.cons.cons => exact absurd h (by simp)
  dsimp only at h
  simp only [Bool.and_eq_true] at h
  obtain ⟨⟨⟨h0, h1⟩, h2⟩, h3⟩ := h
  obtain ⟨hne0, hdig0, hle0⟩ := isOctetStrict_parts h0
  obtain ⟨hne1, hdig1, hle1⟩ := isOctetStrict_parts h1
  obtain ⟨hne2, hdig2, hle2⟩ := isOctetStrict_parts h2
  obtain ⟨hne3, hdig3, hle3⟩ := isOctetStrict_parts h3
  have hm : (splitChar '.' l).map jsNumberL =
      [.num ((decVal o0 : Rat)), .num ((decVal o1 : Rat)),
       .num ((decVal o2 : Rat)), .num ((decVal o3 : Rat))] := by
    rw [hsp]
    simp only [List.map_cons, List.map_nil]
    rw [jsNumberL_digits o0 hne0 hdig0, jsNumberL_digits o1 hne1 hdig1,
      jsNumberL_digits o2 hne2 hdig2, jsNumberL_digits o3 hne3 hdig3]
  obtain ⟨heq, hlt⟩ := ipv4ToIntL_eq l _ _ _ _ hm
    (jsNumIsBad_natCast _ hle0) (jsNumIsBad_natCast _ hle1)
    (jsNumIsBad_natCast _ hle2) (jsNumIsBad_natCast _ hle3)
  exact ⟨_, heq, hlt⟩

theorem mask_if_eq (bits : Int) (h0 : 0 ≤ bits) (h32 : bits ≤ 32) :
    ((if bits = 0 then 0 else 2 ^ 32 - 2 ^ (32 - bits.toNat)) : Nat) =
      2 ^ 32 - 2 ^ (32 - bits.toNat) := by
  by_cases hz : bits = 0
  · subst hz
    norm_num
  · rw [if_neg hz]

theorem compl_mask_eq (n : Nat) (hn : n ≤ 32) :
    (2 ^ 32 - 1 - (2 ^ 32 - 2 ^ (32 - n)) : Nat) = 2 ^ (32 - n) - 1 := by
  have hle : (2 : Nat) ^ (32 - n) ≤ 2 ^ 32 := Nat.pow_le_pow_right (by omega) (by omega)
  have hpos : (1 : Nat) ≤ 2 ^ (32 - n) := Nat.one_le_two_pow
  omega

theorem parseCIDR_success_core (s : String) (v : Nat) (bits : Int)
    (hv : ipv4ToIntL ((splitChar '/' s.data).headD []) = some v)
    (hbits : (match (splitChar '/' s.data).tail.head? with
              | some b => parseIntDecL b
              | none => some 32) = some bits)
    (h0 : 0 ≤ bits) (h32 : bits ≤ 32) :
    parseCIDR s = some ⟨v &&& (2 ^ 32 - 2 ^ (32 - bits.toNat) : Nat),
      (v &&& (2 ^ 32 - 2 ^ (32 - bits.toNat) : Nat)) ||| (2 ^ (32 - bits.toNat) - 1 : Nat)⟩ := by
  simp only [parseCIDR]
  rw [hbits, hv]
  dsimp only
  rw [if_pos ⟨h0, h32⟩]
  rw [mask_if_eq bits h0 h32, compl_mask_eq bits.toNat (by omega)]

/-- C4 counterexample: `"1.2.3.4/24/0"` is neither of the form `a.b.c.d/n`
nor a bare `a.b.c.d` (it has two slashes), yet `parseCIDR` accepts it — JS
`split('/')` produces a third segment that the code never looks at — so
"accepts exactly strings of the form a.b.c.d/n or bare a.b.c.d" is false as
stated. -/
theorem parseCIDR_form_counterexample :
    parseCIDR "1.2.3.4/24/0" = some ⟨16909056, 16909311⟩ ∧
    specAcceptsCIDR "1.2.3.4/24/0" = false := by decide

/-- C4 (amended): `parseCIDR` accepts exactly the strings whose first
`'/'`-segment passes the lenient JS-numeric octet coercion of `ipv4ToInt`
and whose second `'/'`-segment, when present, `parseInt`s to an integer in
[0, 32] (slash-segments beyond the second are ignored; an absent segment
means /32); strings of the spec's strict form are among those accepted.  On
success the address value is the big-endian packing of the four truncated
octet values (each in [0, 255], total below 2^32), the mask has exactly the
top `n` bits set, `start = address AND mask`,
`end = start OR (NOT mask within 32 bits)`, and `start ≤ end`. -/
theorem parseCIDR_spec (s : String) :
    (parseCIDR s).isSome = parseCIDRAccepts s ∧
    (∀ r, parseCIDR s = some r →
      ∃ (v : Nat) (n : Nat), ipv4ToIntL ((splitChar '/' s.data).headD []) = some v ∧ n ≤ 32 ∧
        (((splitChar '/' s.data).tail.head? = none ∧ n = 32) ∨
          (∃ b, (splitChar '/' s.data).tail.head? = some b ∧
            parseIntDecL b = some ((n : Int)))) ∧
        r.start = v &&& (2 ^ 32 - 2 ^ (32 - n)) ∧
        r.stop = r.start ||| (2 ^ (32 - n) - 1) ∧
        r.start ≤ r.stop) ∧
    (specAcceptsCIDR s = true → (parseCIDR s).isSome = true) ∧
    (∀ v, ipv4ToIntL ((splitChar '/' s.data).headD []) = some v →
      ∃ o0 o1 o2 o3,
        (splitChar '.' ((splitChar '/' s.data).headD [])).map jsNumberL = [o0, o1, o2, o3] ∧
        jsNumIsBad o0 = false ∧ jsNumIsBad o1 = false ∧
        jsNumIsBad o2 = false ∧ jsNumIsBad o3 = false ∧
        v = jsToUint32 o0 * 2 ^ 24 + jsToUint32 o1 * 2 ^ 16 + jsToUint32 o2 * 2 ^ 8 +
          jsToUint32 o3 ∧
        jsToUint32 o0 ≤ 255 ∧ jsToUint32 o1 ≤ 255 ∧ jsToUint32 o2 ≤ 255 ∧
        jsToUint32 o3 ≤ 255 ∧ v < 2 ^ 32) := by
  refine ⟨?_, ?_, ?_, ?_⟩
  · simp only [parseCIDR, parseCIDRAccepts]
    cases hv : ipv4ToIntL ((splitChar '/' s.data).headD []) with
    | none =>
      cases hbh : (splitChar '/' s.data).tail.head? with
      | none => simp
      | some b => dsimp only; simp
    | some v =>
      cases hbh : (splitChar '/' s.data).tail.head? with
      | none =>
        dsimp only
        rw [if_pos (by norm_num : (0 : Int) ≤ 32 ∧ (32 : Int) ≤ 32)]
        simp
      | some b =>
        dsimp only
        cases hpi : parseIntDecL b with
        | none => simp
        | some bits =>
          dsimp only
          by_cases hrange : 0 ≤ bits ∧ bits ≤ 32
          · rw [if_pos hrange]
            simp [hrange.1, hrange.2]
          · rw [if_neg hrange]
            rcases not_and_or.mp hrange with h | h <;> simp [h]
  · intro r hr
    cases hv : ipv4ToIntL ((splitChar '/' s.data).headD []) with
    | none =>
      exfalso
      simp only [parseCIDR] at hr
      cases hbh : (splitChar '/' s.data).tail.head? with
      | none => rw [hbh, hv] at hr; simp at hr
      | some b =>
        rw [hbh, hv] at hr
        dsimp only at hr
        simp at hr
    | some v =>
      cases hbh : (splitChar '/' s.data).tail.head? with
      | none =>
        have hcore := parseCIDR_success_core s v 32 hv (by rw [hbh]) (by norm_num) (by norm_num)
        rw [hcore] at hr
        rcases Option.some.inj hr with rfl
        exact ⟨v, 32, rfl, by norm_num, Or.inl ⟨rfl, rfl⟩, rfl, rfl,
          nat_le_lor _ _⟩
      | some b =>
        cases hpi : parseIntDecL b with
        | none =>
          exfalso
          simp only [parseCIDR] at hr
          rw [hbh, hv] at hr
          dsimp only at hr
          rw [hpi] at hr
          simp at hr
        | some bits =>
          by_cases hrange : 0 ≤ bits ∧ bits ≤ 32
          · have hcore := parseCIDR_success_core s v bits hv
              (by rw [hbh]; dsimp only; exact hpi) hrange.1 hrange.2
            rw [hcore] at hr
            rcases Option.some.inj hr with rfl
            refine ⟨v, bits.toNat, rfl, by omega, Or.inr ⟨b, rfl, ?_⟩, rfl, rfl,
              nat_le_lor _ _⟩
            rw [Int.toNat_of_nonneg hrange.1]
            exact hpi
          · exfalso
            simp only [parseCIDR] at hr
            rw [hbh, hv] at hr
            dsimp only at hr
            rw [hpi] at hr
            dsimp only at hr
            rw [if_neg hrange] at hr
            simp at hr
  · intro hspec
    rw [specAcceptsCIDR] at hspec
    rcases hsp : splitChar '/' s.data with _ | ⟨p0, _ | ⟨p1, rest⟩⟩ <;> rw [hsp] at hspec
    case nil => exact absurd hspec (by simp)
    case cons.nil =>
      dsimp only at hspec
      obtain ⟨v, hv, _⟩ := ipv4ToIntL_strict p0 hspec
      have hcore := parseCIDR_success_core s v 32
        (by rw [hsp]; exact hv) (by rw [hsp]; rfl) (by norm_num) (by norm_num)
      rw [hcore]
      rfl
    case cons.cons =>
      cases rest with
      | nil =>
        dsimp only at hspec
        simp only [Bool.and_eq_true, decide_eq_true_eq, List.all_eq_true] at hspec
        obtain ⟨⟨⟨hq, hne⟩, hdig⟩, hle⟩ := hspec
        obtain ⟨v, hv, _⟩ := ipv4ToIntL_strict p0 hq
        have hb : parseIntDecL p1 = some ((decVal p1 : Int)) := parseIntDecL_digits p1 hne hdig
        have hcore := parseCIDR_success_core s v ((decVal p1 : Int))
          (by rw [hsp]; exact hv) (by rw [hsp]; exact hb)
          (by exact_mod_cast Nat.zero_le _) (by exact_mod_cast hle)
        rw [hcore]
        rfl
      | cons p2 rest2 => exact absurd hspec (by simp)
  · intro v hv
    rcases hm : (splitChar '.' ((splitChar '/' s.data).headD [])).map jsNumberL with
      _ | ⟨a, _ | ⟨b, _ | ⟨c, _ | ⟨d, _ | ⟨e, rest⟩⟩⟩⟩⟩ <;>
      (have hv2 := hv; rw [ipv4ToIntL, hm] at hv2)
    case nil => exact absurd hv2 (by simp)
    case cons.nil => exact absurd hv2 (by simp)
    case cons.cons.nil => exact absurd hv2 (by simp)
    case cons.cons.cons.nil => exact absurd hv2 (by simp)
    case cons.cons.cons.cons.cons => exact absurd hv2 (by simp)
    dsimp only at hv2
    by_cases hbad : (jsNumIsBad a || jsNumIsBad b || jsNumIsBad c || jsNumIsBad d) = true
    · rw [if_pos hbad] at hv2
      exact absurd hv2 (by simp)
    · simp only [Bool.or_eq_true, not_or, Bool.not_eq_true] at hbad
      obtain ⟨⟨⟨ha, hb⟩, hc⟩, hd⟩ := hbad
      obtain ⟨heq, hlt⟩ := ipv4ToIntL_eq _ a b c d hm ha hb hc hd
      rw [hv] at heq
      rcases Option.some.inj heq with rfl
      exact ⟨a, b, c, d, rfl, ha, hb, hc, hd, rfl,
        jsToUint32_le_255 a ha, jsToUint32_le_255 b hb, jsToUint32_le_255 c hc,
        jsToUint32_le_255 d hd, hlt⟩

/-- C4 witness: the spec's four rejection examples are rejected, a strict
form is accepted, its parse satisfies the stated mask arithmetic, and a bare
address is treated as /32. -/
theorem parseCIDR_spec_witness :
    parseCIDR "999.1.1.1/24" = none ∧
    parseCIDR "1.2.3/24" = none ∧
    parseCIDR "1.2.3.4/33" = none ∧
    parseCIDR "not.an.ip" = none ∧
    specAcceptsCIDR "10.0.0.0/24" = true ∧
    (parseCIDR "10.0.0.0/24").isSome = true ∧
    (∃ (v : Nat) (n : Nat),
      ipv4ToIntL ((splitChar '/' ("10.0.0.0/24" : String).data).headD []) = some v ∧ n ≤ 32 ∧
      (((splitChar '/' ("10.0.0.0/24" : String).data).tail.head? = none ∧ n = 32) ∨
        (∃ b, (splitChar '/' ("10.0.0.0/24" : String).data).tail.head? = some b ∧
          parseIntDecL b = some ((n : Int)))) ∧
      (⟨167772160, 167772415⟩ : IPRange).start = v &&& (2 ^ 32 - 2 ^ (32 - n)) ∧
      (⟨167772160, 167772415⟩ : IPRange).stop =
        (⟨167772160, 167772415⟩ : IPRange).start ||| (2 ^ (32 - n) - 1) ∧
      (⟨167772160, 167772415⟩ : IPRange).start ≤ (⟨167772160, 167772415⟩ : IPRange).stop) ∧
    parseCIDR "1.2.3.4" = parseCIDR "1.2.3.4/32" :=
  ⟨by decide, by decide, by decide, by decide, by decide,
    (parseCIDR_spec "10.0.0.0/24").2.2.1 (by decide),
    (parseCIDR_spec "10.0.0.0/24").2.1 ⟨167772160, 167772415⟩ (by decide),
    by decide⟩

/-- C8: a valid dotted-quad address always lies inside the range parsed from
itself with any prefix length `n ≤ 32`: parsing `a ++ "/" ++ n` succeeds and
`ipAllowed` accepts `a` against that single range. -/
theorem address_in_own_range (a : String) (n : Nat)
    (ha : isDottedQuadStrict a = true) (hn : n ≤ 32) :
    ∃ r, parseCIDR (a ++ "/" ++ (⟨decRepr n⟩ : String)) = some r ∧
      ipAllowed a [r] = true := by
  rw [isDottedQuadStrict] at ha
  obtain ⟨v, hv, hvlt⟩ := ipv4ToIntL_strict a.data ha
  rw [isDottedQuadStrictL] at ha
  rcases hsp : splitChar '.' a.data with _ | ⟨o0, _ | ⟨o1, _ | ⟨o2, _ | ⟨o3, _ | ⟨o4, rest⟩⟩⟩⟩⟩ <;>
    rw [hsp] at ha
  case nil => exact absurd ha (by simp)
  case cons.nil => exact absurd ha (by simp)
  case cons.cons.nil => exact absurd ha (by simp)
  case cons.cons.cons.nil => exact absurd ha (by simp)
  case cons.cons.cons.cons.cons => exact absurd ha (by simp)
  dsimp only at ha
  simp only [Bool.and_eq_true] at ha
  obtain ⟨⟨⟨h0, h1⟩, h2⟩, h3⟩ := ha
  have hnos : '/' ∉ a.data := by
    intro hmem
    rcases mem_splitChar '.' a.data '/' hmem with h | ⟨p, hp, hcp⟩
    · exact absurd h (by decide)
    · rw [hsp] at hp
      have hdigs : isDig '/' = true := by
        simp only [List.mem_cons, List.not_mem_nil, or_false] at hp
        rcases hp with rfl | rfl | rfl | rfl
        · exact (isOctetStrict_parts h0).2.1 _ hcp
        · exact (isOctetStrict_parts h1).2.1 _ hcp
        · exact (isOctetStrict_parts h2).2.1 _ hcp
        · exact (isOctetStrict_parts h3).2.1 _ hcp
      exact absurd hdigs (by decide)
  have hnos2 : '/' ∉ decRepr n := by
    intro hmem
    exact absurd (decRepr_digits n '/' hmem) (by decide)
  have hdata : (a ++ "/" ++ (⟨decRepr n⟩ : String)).data = a.data ++ '/' :: decRepr n := by
    rw [String.data_append, String.data_append]
    simp
  have hsplit : splitChar '/' ((a ++ "/" ++ (⟨decRepr n⟩ : String)).data) =
      [a.data, decRepr n] := by
    rw [hdata, splitChar_append_sep '/' a.data (decRepr n) hnos,
      splitChar_no_sep '/' (decRepr n) hnos2]
  have hpiece : parseIntDecL (decRepr n) = some ((n : Int)) := by
    have := parseIntDecL_digits (decRepr n) (decRepr_ne_nil n) (decRepr_digits n)
    rwa [decVal_decRepr] at this
  have hcore := parseCIDR_success_core (a ++ "/" ++ (⟨decRepr n⟩ : String)) v ((n : Int))
    (by rw [hsplit]; exact hv)
    (by rw [hsplit]; exact hpiece)
    (by exact_mod_cast Nat.zero_le n)
    (by exact_mod_cast hn)
  rw [Int.toNat_natCast] at hcore
  refine ⟨_, hcore, ?_⟩
  have hva : ipv4ToInt a = some v := hv
  rw [ipAllowed, hva]
  simp only [List.any_cons, List.any_nil, Bool.or_false, Bool.and_eq_true,
    decide_eq_true_eq]
  exact ⟨Nat.and_le_left, le_and_or_compl v n hvlt hn⟩

/-- C8 witness: `10.0.0.5` lies inside the /24 range parsed from itself. -/
theorem address_in_own_range_witness :
    isDottedQuadStrict "10.0.0.5" = true ∧
    ∃ r, parseCIDR ("10.0.0.5" ++ "/" ++ (⟨decRepr 24⟩ : String)) = some r ∧
      ipAllowed "10.0.0.5" [r] = true :=
  ⟨by decide, address_in_own_range "10.0.0.5" 24 (by decide) (by decide)⟩
